import Mathlib

/-!
Verification of the on-chain-to-graph projection of `src/App.vue`
(Suprime-io/workflow-visual).

The projection (`readOnchainData`) reads two counters (`stateIndex`,
`transitionIndex`) from a remote contract, then sequentially reads the
state records `states(1) .. states(N-1)` and transition records
`transitions(1) .. transitions(M-1)`, pushing a node per state and an
edge per transition, and finally classifies node roles (`adjustView`).

Shallow embedding notes:
* Remote reads are modelled by an oracle (`Chain`) whose fields return
  `Option` values; `none` models a rejected promise.
* JavaScript `Number(...).toString()` on the 1-based loop index is
  modelled by `Nat.repr` (decimal digits, no sign, no padding).
* The raw transition tuple `(label, source, target, flag)` is decoded by
  viem as `(string, bigint, bigint, boolean)`; `Boolean(flag)` on an
  already-boolean value is the identity, so the flag is a `Bool`.
* In the source, `yPos` starts at `50` and is incremented by `100`
  before each push, so the node pushed for loop index `i` has
  `y = 50 + 100 * i`; the embedding computes that closed form directly.
* The promise chain in `readOnchainData` does not return the inner
  `.then` chain: the promise handed to `onInit`'s
  `.then(() => vueFlowInstance.fitView())` resolves as soon as the
  `stateIndex` read resolves, so `fitView` (the "ready" signal) fires
  whenever that first read succeeds, regardless of later failures.
  The `ready` field of `ProjState` records exactly this.
-/

namespace WorkflowVisual

/-- The only marker used by the source: `MarkerType.ArrowClosed`. -/
inductive MarkerType where
  | arrowClosed
deriving DecidableEq, Repr

/-- A VueFlow node as pushed by `readOnchainData`:
`{ id, data: { label }, position: { x, y }, class: 'light' }`, plus the
`type` field later written by `updateNode` (`none` = no `type` key, the
default role).  The field `class` is spelled `cls` (Lean keyword). -/
structure Node where
  id : String
  label : String
  x : Nat
  y : Nat
  cls : String
  type : Option String
deriving DecidableEq, Repr

/-- A VueFlow edge as pushed by `readOnchainData`:
`{ id, label, source, target, animated, markerEnd }`.  The `id` is the
raw loop index (a number, not a string). -/
structure Edge where
  id : Nat
  label : String
  source : String
  target : String
  animated : Bool
  markerEnd : MarkerType
deriving DecidableEq, Repr

/-- The raw 4-tuple returned by `transitions(i)`:
`(label, source, target, flag)` decoded as `(string, uint, uint, bool)`. -/
structure RawTransition where
  label : String
  source : Nat
  target : Nat
  flag : Bool
deriving DecidableEq, Repr

/-- The remote-read oracle: one session's view of the contract.
`none` models a rejected read.  `states i` returns the first tuple
component (the label) of the state record, the only part the code uses. -/
structure Chain where
  stateIndex : Option Nat
  transitionIndex : Option Nat
  states : Nat → Option String
  transitions : Nat → Option RawTransition

/-- Result of one projection run: the node and edge arrays, whether
`adjustView` ran (`classified`), and whether the `fitView` call in
`onInit`'s continuation fired (`ready`). -/
structure ProjState where
  nodes : List Node
  edges : List Edge
  classified : Bool
  ready : Bool
deriving DecidableEq, Repr

/-- A graph, as consumed by the classifier: the two reactive arrays. -/
structure Graph where
  nodes : List Node
  edges : List Edge
deriving DecidableEq, Repr

/-- The node pushed for loop index `i`:
`{ id: i.toString(), data: { label }, position: { x: 250, y: 50 + 100*i },
class: 'light' }`. -/
def mkNode (i : Nat) (lbl : String) : Node :=
  { id := Nat.repr i, label := lbl, x := 250, y := 50 + 100 * i,
    cls := "light", type := none }

/-- The edge pushed for loop index `i` from tuple `t`:
`{ id: i, label: t[0], source: t[1].toString(), target: t[2].toString(),
animated: Boolean(t[3]), markerEnd: ArrowClosed }`. -/
def mkEdge (i : Nat) (t : RawTransition) : Edge :=
  { id := i, label := t.label, source := Nat.repr t.source,
    target := Nat.repr t.target, animated := t.flag,
    markerEnd := MarkerType.arrowClosed }

/-- The states loop `for (stateIndex = i; stateIndex < N; stateIndex++)`,
phrased by its remaining iteration count `k = N - i`: awaits
`states(stateIndex)` and pushes a node per iteration; a rejected read
aborts the loop, keeping the nodes pushed so far.  Returns the pushed
nodes and whether the loop completed. -/
def buildNodesGo (states : Nat → Option String) : Nat → Nat → List Node × Bool
  | 0, _ => ([], true)
  | k + 1, i =>
    match states i with
    | none => ([], false)
    | some lbl =>
      let r := buildNodesGo states k (i + 1)
      (mkNode i lbl :: r.1, r.2)

/-- The full states loop `for (stateIndex = 1; stateIndex < N; ...)`:
`N - 1` iterations starting at index `1` (zero iterations when
`N = 0` or `N = 1`). -/
def buildNodes (states : Nat → Option String) (N : Nat) : List Node × Bool :=
  buildNodesGo states (N - 1) 1

/-- The transitions loop, same shape as the states loop. -/
def buildEdgesGo (transitions : Nat → Option RawTransition) :
    Nat → Nat → List Edge × Bool
  | 0, _ => ([], true)
  | k + 1, i =>
    match transitions i with
    | none => ([], false)
    | some t =>
      let r := buildEdgesGo transitions k (i + 1)
      (mkEdge i t :: r.1, r.2)

/-- The full transitions loop: `M - 1` iterations starting at index `1`. -/
def buildEdges (transitions : Nat → Option RawTransition) (M : Nat) :
    List Edge × Bool :=
  buildEdgesGo transitions (M - 1) 1

/-- VueFlow's `updateNode(id, { type: t })`: locate the node with the
given id and merge the patch.  Node ids are unique in every graph this
app builds, so we model the lookup as updating every matching node. -/
def updateNode (ns : List Node) (i : String) (t : String) : List Node :=
  ns.map fun n => if n.id = i then { n with type := some t } else n

/-- `edges.find((edge) => edge.source === node.id)` is truthy. -/
def hasOutgoing (es : List Edge) (i : String) : Bool :=
  (es.find? fun e => e.source == i).isSome

/-- `adjustView`: first `updateNode('1', { type: 'input' })`, then for
each node (iterating the original array) with no outgoing edge,
`updateNode(node.id, { type: 'output' })`. -/
def adjustView (ns : List Node) (es : List Edge) : List Node :=
  let ns1 := updateNode ns "1" "input"
  ns.foldl
    (fun acc n => if hasOutgoing es n.id then acc
                  else updateNode acc n.id "output") ns1

/-- The classifier as a graph transformer: `adjustView` reads
`nodes.value` and `edges.value` and rewrites node roles only. -/
def classifyGraph (g : Graph) : Graph :=
  { nodes := adjustView g.nodes g.edges, edges := g.edges }

/-- One projection run of `readOnchainData` composed with `onInit`'s
continuation.  Control flow of the source promise chain:
* `stateIndex` read rejects: nothing else runs, no `fitView`.
* `stateIndex` resolves: the outer promise resolves (the inner chain is
  not returned), so `fitView` fires (`ready := true`); then
  `transitionIndex` is read on the detached inner chain.
* `transitionIndex` rejects: no record is read at all.
* Otherwise the states loop runs, then the transitions loop, then
  `adjustView`; a rejected record read aborts the detached chain,
  keeping whatever was pushed, with `adjustView` never reached. -/
def readOnchainData (c : Chain) : ProjState :=
  match c.stateIndex with
  | none => { nodes := [], edges := [], classified := false, ready := false }
  | some N =>
    match c.transitionIndex with
    | none => { nodes := [], edges := [], classified := false, ready := true }
    | some M =>
      let rn := buildNodes c.states N
      if rn.2 then
        let re := buildEdges c.transitions M
        if re.2 then
          { nodes := adjustView rn.1 re.1, edges := re.1,
            classified := true, ready := true }
        else
          { nodes := rn.1, edges := re.1, classified := false, ready := true }
      else
        { nodes := rn.1, edges := [], classified := false, ready := true }

/-! ### Injectivity of `Nat.repr`

`Number.prototype.toString()` on distinct naturals yields distinct
strings; to prove node ids pairwise distinct we show `Nat.repr` is
injective, via a digit-evaluation left inverse. -/

/-- Numeric value of a decimal digit character. -/
def digitVal (c : Char) : Nat := c.toNat - 48

/-- Evaluate a decimal digit string back to a natural number. -/
def charsVal (l : List Char) : Nat :=
  l.foldl (fun a c => 10 * a + digitVal c) 0

theorem digitVal_digitChar : ∀ m, m < 10 → digitVal (Nat.digitChar m) = m := by
  decide

theorem toDigitsCore_append (fuel n : Nat) (ds : List Char) :
    Nat.toDigitsCore 10 fuel n ds = Nat.toDigitsCore 10 fuel n [] ++ ds := by
  induction fuel generalizing n ds with
  | zero => simp [Nat.toDigitsCore]
  | succ fuel ih =>
    simp only [Nat.toDigitsCore]
    by_cases h : n / 10 = 0
    · simp [h]
    · simp only [h, if_false]
      rw [ih (n / 10) (Nat.digitChar (n % 10) :: ds),
          ih (n / 10) [Nat.digitChar (n % 10)], List.append_assoc]
      rfl

theorem charsVal_append_singleton (l : List Char) (c : Char) :
    charsVal (l ++ [c]) = 10 * charsVal l + digitVal c := by
  simp [charsVal, List.foldl_append]

theorem charsVal_toDigitsCore (fuel n : Nat) (h : n < fuel) :
    charsVal (Nat.toDigitsCore 10 fuel n []) = n := by
  induction fuel generalizing n with
  | zero => omega
  | succ fuel ih =>
    simp only [Nat.toDigitsCore]
    by_cases h10 : n / 10 = 0
    · have hn : n < 10 := by omega
      simp [h10, charsVal, digitVal_digitChar (n % 10) (Nat.mod_lt n (by omega))]
      omega
    · have hdiv : n / 10 < fuel := by omega
      simp only [h10, if_false]
      rw [toDigitsCore_append, charsVal_append_singleton, ih (n / 10) hdiv,
          digitVal_digitChar (n % 10) (Nat.mod_lt n (by omega))]
      omega

theorem charsVal_data_repr (n : Nat) : charsVal (Nat.repr n).data = n :=
  charsVal_toDigitsCore (n + 1) n (Nat.lt_succ_self n)

theorem natRepr_injective : Function.Injective Nat.repr := by
  intro m n h
  have hd : (Nat.repr m).data = (Nat.repr n).data := congrArg String.data h
  have hm := charsVal_data_repr m
  have hn := charsVal_data_repr n
  rw [hd, hn] at hm
  exact hm.symm

/-! ### Characterization of the classifier

`adjustView` only ever rewrites `type` fields, and its control flow
depends only on node ids and edge sources, so it acts pointwise: node
`n` ends with role `output` when it has no outgoing edge, role `input`
when it has one and its id is `"1"`, and is untouched otherwise. -/

/-- The pointwise role decision that `adjustView` implements. -/
def roleFun (es : List Edge) (n : Node) : Node :=
  if hasOutgoing es n.id then
    (if n.id = "1" then { n with type := some "input" } else n)
  else { n with type := some "output" }

theorem foldl_output_pass (es : List Edge) (l acc : List Node) :
    (l.foldl
      (fun acc n => if hasOutgoing es n.id then acc
                    else updateNode acc n.id "output") acc) =
      acc.map (fun n =>
        if l.any (fun m => !hasOutgoing es m.id && (m.id == n.id))
        then { n with type := some "output" } else n) := by
  induction l generalizing acc with
  | nil => simp
  | cons m l ih =>
    simp only [List.foldl_cons]
    rw [ih]
    cases h : hasOutgoing es m.id with
    | true => simp [List.any_cons, h]
    | false =>
      simp only [h, Bool.false_eq_true, if_false, updateNode, List.map_map]
      refine List.map_congr_left (fun n _ => ?_)
      simp only [Function.comp]
      by_cases hn : n.id = m.id
      · have hn' : (m.id == n.id) = true := by simp [hn]
        simp [hn, List.any_cons, h, hn']
      · have hn' : (m.id == n.id) = false := by
          simp [beq_eq_false_iff_ne]
          exact fun hh => hn hh.symm
        simp [hn, List.any_cons, h, hn']

theorem any_no_outgoing (es : List Edge) (ns : List Node) (i : String)
    (h : ∃ m ∈ ns, m.id = i) :
    (ns.any fun m => !hasOutgoing es m.id && (m.id == i)) = !hasOutgoing es i := by
  cases ho : hasOutgoing es i with
  | true =>
    show _ = false
    rw [List.any_eq_false]
    intro m _
    by_cases hm : m.id = i
    · simp [hm, ho]
    · simp [hm]
  | false =>
    show _ = true
    rw [List.any_eq_true]
    obtain ⟨m, hm, hmi⟩ := h
    exact ⟨m, hm, by simp [hmi, ho]⟩

theorem adjustView_eq_map (ns : List Node) (es : List Edge) :
    adjustView ns es = ns.map (roleFun es) := by
  unfold adjustView
  rw [foldl_output_pass]
  unfold updateNode
  rw [List.map_map]
  refine List.map_congr_left (fun n hn => ?_)
  obtain ⟨nid, nlabel, nx, ny, ncls, ntype⟩ := n
  simp only [Function.comp_apply]
  by_cases h1 : nid = "1"
  · subst h1
    rw [if_pos rfl]
    simp only []
    rw [any_no_outgoing es ns "1" ⟨⟨"1", nlabel, nx, ny, ncls, ntype⟩, hn, rfl⟩]
    cases ho : hasOutgoing es "1" <;> simp [roleFun, ho]
  · rw [if_neg h1]
    simp only []
    rw [any_no_outgoing es ns nid ⟨⟨nid, nlabel, nx, ny, ncls, ntype⟩, hn, rfl⟩]
    cases ho : hasOutgoing es nid <;> simp [roleFun, ho, h1]

theorem roleFun_idem (es : List Edge) (n : Node) :
    roleFun es (roleFun es n) = roleFun es n := by
  obtain ⟨nid, nlabel, nx, ny, ncls, ntype⟩ := n
  by_cases h1 : nid = "1"
  · subst h1
    cases ho : hasOutgoing es "1" <;> simp [roleFun, ho]
  · cases ho : hasOutgoing es nid <;> simp [roleFun, ho, h1]

/-! ### Build-loop lemmas -/

/-- When every read in range succeeds, the states loop completes and
produces exactly one node per index. -/
theorem buildNodesGo_success (s : Nat → Option String) (f : Nat → String) :
    ∀ k i, (∀ j, i ≤ j → j < i + k → s j = some (f j)) →
    buildNodesGo s k i = ((List.range' i k).map fun j => mkNode j (f j), true) := by
  intro k
  induction k with
  | zero => intro i _; simp [buildNodesGo]
  | succ k ih =>
    intro i hs
    have hi : s i = some (f i) := hs i le_rfl (by omega)
    simp only [buildNodesGo, hi]
    rw [ih (i + 1) (fun j h1 h2 => hs j (by omega) (by omega))]
    rw [List.range'_succ]
    simp

/-- Even a partial states loop yields nodes whose ids and positions are
those of a contiguous index range starting at `i`. -/
theorem buildNodesGo_sig (s : Nat → Option String) :
    ∀ k i, ∃ m, m ≤ k ∧
      (buildNodesGo s k i).1.map (fun n => (n.id, n.x, n.y))
        = (List.range' i m).map (fun j => (Nat.repr j, 250, 50 + 100 * j)) := by
  intro k
  induction k with
  | zero => intro i; exact ⟨0, le_rfl, by simp [buildNodesGo]⟩
  | succ k ih =>
    intro i
    cases hi : s i with
    | none => exact ⟨0, by omega, by simp [buildNodesGo, hi]⟩
    | some lbl =>
      obtain ⟨m, hm, hmap⟩ := ih (i + 1)
      refine ⟨m + 1, by omega, ?_⟩
      simp only [buildNodesGo, hi]
      rw [List.range'_succ]
      simp [hmap, mkNode]

/-- When every read in range succeeds, the transitions loop completes
and produces exactly one edge per index. -/
theorem buildEdgesGo_success (tr : Nat → Option RawTransition)
    (g : Nat → RawTransition) :
    ∀ k i, (∀ j, i ≤ j → j < i + k → tr j = some (g j)) →
    buildEdgesGo tr k i = ((List.range' i k).map fun j => mkEdge j (g j), true) := by
  intro k
  induction k with
  | zero => intro i _; simp [buildEdgesGo]
  | succ k ih =>
    intro i hs
    have hi : tr i = some (g i) := hs i le_rfl (by omega)
    simp only [buildEdgesGo, hi]
    rw [ih (i + 1) (fun j h1 h2 => hs j (by omega) (by omega))]
    rw [List.range'_succ]
    simp

/-- Even a partial transitions loop yields edges whose ids form a
contiguous index range starting at `i`. -/
theorem buildEdgesGo_ids (tr : Nat → Option RawTransition) :
    ∀ k i, ∃ m, m ≤ k ∧
      (buildEdgesGo tr k i).1.map Edge.id = List.range' i m := by
  intro k
  induction k with
  | zero => intro i; exact ⟨0, le_rfl, by simp [buildEdgesGo]⟩
  | succ k ih =>
    intro i
    cases hi : tr i with
    | none => exact ⟨0, by omega, by simp [buildEdgesGo, hi]⟩
    | some t =>
      obtain ⟨m, hm, hmap⟩ := ih (i + 1)
      refine ⟨m + 1, by omega, ?_⟩
      simp only [buildEdgesGo, hi]
      rw [List.range'_succ]
      simp [hmap, mkEdge]

/-- The classifier leaves id and position of every node unchanged. -/
theorem adjustView_sig (ns : List Node) (es : List Edge) :
    (adjustView ns es).map (fun n => (n.id, n.x, n.y))
      = ns.map (fun n => (n.id, n.x, n.y)) := by
  rw [adjustView_eq_map, List.map_map]
  refine List.map_congr_left (fun n _ => ?_)
  simp only [Function.comp_apply]
  unfold roleFun
  split_ifs <;> rfl

/-- The classifier leaves every node field except `type` unchanged. -/
theorem adjustView_frame (ns : List Node) (es : List Edge) :
    (adjustView ns es).map (fun n => (n.id, n.label, n.x, n.y, n.cls))
      = ns.map (fun n => (n.id, n.label, n.x, n.y, n.cls)) := by
  rw [adjustView_eq_map, List.map_map]
  refine List.map_congr_left (fun n _ => ?_)
  simp only [Function.comp_apply]
  unfold roleFun
  split_ifs <;> rfl

/-- In every run, completed or partial, node ids and positions are those
of a contiguous index range starting at `1`. -/
theorem readOnchainData_nodes_sig (c : Chain) :
    ∃ m, (readOnchainData c).nodes.map (fun n => (n.id, n.x, n.y))
      = (List.range' 1 m).map (fun j => (Nat.repr j, 250, 50 + 100 * j)) := by
  unfold readOnchainData
  cases hN : c.stateIndex with
  | none => exact ⟨0, by simp⟩
  | some N =>
    cases hM : c.transitionIndex with
    | none => exact ⟨0, by simp⟩
    | some M =>
      obtain ⟨m, _, hmap⟩ := buildNodesGo_sig c.states (N - 1) 1
      refine ⟨m, ?_⟩
      simp only [buildNodes]
      cases hok : (buildNodesGo c.states (N - 1) 1).2 with
      | false => simpa [hok] using hmap
      | true =>
        cases hok2 : (buildEdgesGo c.transitions (M - 1) 1).2 with
        | false => simpa [buildEdges, hok, hok2] using hmap
        | true =>
          simp only [buildEdges, hok, hok2, if_true]
          rw [adjustView_sig]
          exact hmap

/-- In every run, completed or partial, edge ids form a contiguous index
range starting at `1`. -/
theorem readOnchainData_edges_ids (c : Chain) :
    ∃ m, (readOnchainData c).edges.map Edge.id = List.range' 1 m := by
  unfold readOnchainData
  cases hN : c.stateIndex with
  | none => exact ⟨0, by simp⟩
  | some N =>
    cases hM : c.transitionIndex with
    | none => exact ⟨0, by simp⟩
    | some M =>
      obtain ⟨m, _, hmap⟩ := buildEdgesGo_ids c.transitions (M - 1) 1
      simp only [buildNodes, buildEdges]
      cases hok : (buildNodesGo c.states (N - 1) 1).2 with
      | false => exact ⟨0, by simp [hok]⟩
      | true =>
        cases hok2 : (buildEdgesGo c.transitions (M - 1) 1).2 with
        | false => exact ⟨m, by simpa [hok, hok2] using hmap⟩
        | true => exact ⟨m, by simpa [hok, hok2] using hmap⟩

/-- The classifier preserves node ids. -/
theorem roleFun_preserves_id (es : List Edge) (n : Node) :
    (roleFun es n).id = n.id := by
  unfold roleFun
  split_ifs <;> rfl

/-- The classifier preserves the id sequence. -/
theorem adjustView_ids (ns : List Node) (es : List Edge) :
    (adjustView ns es).map Node.id = ns.map Node.id := by
  rw [adjustView_eq_map, List.map_map]
  refine List.map_congr_left (fun n _ => ?_)
  simp only [Function.comp_apply]
  exact roleFun_preserves_id es n

/-- The classifier preserves the node count. -/
theorem adjustView_length (ns : List Node) (es : List Edge) :
    (adjustView ns es).length = ns.length := by
  rw [adjustView_eq_map, List.length_map]

/-- Full characterization of a completely successful run: when both
counts resolve and every record read in range succeeds, the projection
builds one node per state index `1..N-1` and one edge per transition
index `1..M-1`, classifies, and signals ready. -/
theorem readOnchainData_success_eq (c : Chain) (N M : Nat)
    (f : Nat → String) (g : Nat → RawTransition)
    (hN : c.stateIndex = some N) (hM : c.transitionIndex = some M)
    (hs : ∀ j, 1 ≤ j → j < N → c.states j = some (f j))
    (ht : ∀ j, 1 ≤ j → j < M → c.transitions j = some (g j)) :
    readOnchainData c =
      { nodes := adjustView ((List.range' 1 (N - 1)).map fun j => mkNode j (f j))
                   ((List.range' 1 (M - 1)).map fun j => mkEdge j (g j)),
        edges := (List.range' 1 (M - 1)).map fun j => mkEdge j (g j),
        classified := true, ready := true } := by
  unfold readOnchainData
  rw [hN, hM]
  simp only [buildNodes, buildEdges]
  rw [buildNodesGo_success c.states f (N - 1) 1
        (fun j h1 h2 => hs j h1 (by omega)),
      buildEdgesGo_success c.transitions g (M - 1) 1
        (fun j h1 h2 => ht j h1 (by omega))]
  simp

/-! ### Concrete sessions used as witnesses and counterexamples -/

/-- A fully successful session: `N = 3`, `M = 2`, one transition
`("go", 1, 2, true)` (the scenario of spec section 8). -/
def chainOk : Chain :=
  { stateIndex := some 3, transitionIndex := some 2,
    states := fun i => some (Nat.repr i),
    transitions := fun _ => some ⟨"go", 1, 2, true⟩ }

/-- `M = 2` session refuting the claimed edge-id range `1..M-2`. -/
def chainM2 : Chain :=
  { stateIndex := some 1, transitionIndex := some 2,
    states := fun _ => some "s",
    transitions := fun _ => some ⟨"go", 1, 2, true⟩ }

/-- Both count reads resolve (`N = 2`, `M = 2`) but `states(1)` rejects. -/
def chainFail : Chain :=
  { stateIndex := some 2, transitionIndex := some 2,
    states := fun _ => none, transitions := fun _ => none }

/-- `N = 3`, `M = 2`: `states(1)` succeeds, `states(2)` rejects. -/
def chainPartial : Chain :=
  { stateIndex := some 3, transitionIndex := some 2,
    states := fun i => if i = 1 then some "a" else none,
    transitions := fun _ => some ⟨"go", 1, 2, true⟩ }

/-- A session whose single transition references node ids `"7"`/`"9"`
that do not exist among the nodes (only node `"1"` exists). -/
def chainDangling : Chain :=
  { stateIndex := some 2, transitionIndex := some 2,
    states := fun _ => some "a",
    transitions := fun _ => some ⟨"go", 7, 9, false⟩ }

/-- Boundary session: `N = 1`, `M = 0`. -/
def chainBoundary : Chain :=
  { stateIndex := some 1, transitionIndex := some 0,
    states := fun _ => none, transitions := fun _ => none }

/-! ### Claims -/

/-- Claim C1: for every `stateCount = N ≥ 1`, when the `transitionIndex`
count read resolves (without which the states loop never starts) and
every `states(i)` read succeeds, the projection appends exactly `N - 1`
nodes, the k-th appended node having id `String(k)`, so ids run `"1"`
through `String(N-1)` in ascending insertion order. -/
theorem C1_node_count_and_ids (c : Chain) (N M : Nat) (f : Nat → String)
    (hN : c.stateIndex = some N) (hM : c.transitionIndex = some M)
    (hs : ∀ j, 1 ≤ j → j < N → c.states j = some (f j)) (_hN1 : 1 ≤ N) :
    (readOnchainData c).nodes.length = N - 1 ∧
    (readOnchainData c).nodes.map Node.id = (List.range' 1 (N - 1)).map Nat.repr := by
  unfold readOnchainData
  rw [hN, hM]
  simp only [buildNodes, buildEdges]
  rw [buildNodesGo_success c.states f (N - 1) 1
        (fun j h1 h2 => hs j h1 (by omega))]
  have hids : ((List.range' 1 (N - 1)).map fun j => mkNode j (f j)).map Node.id
      = (List.range' 1 (N - 1)).map Nat.repr := by
    rw [List.map_map]
    refine List.map_congr_left (fun j _ => ?_)
    rfl
  have hlen : ((List.range' 1 (N - 1)).map fun j => mkNode j (f j)).length = N - 1 := by
    simp
  cases hok2 : (buildEdgesGo c.transitions (M - 1) 1).2 with
  | false =>
    simp only [hok2, Bool.false_eq_true, if_false]
    exact ⟨hlen, hids⟩
  | true =>
    simp only [hok2, if_true]
    constructor
    · rw [adjustView_length]
      exact hlen
    · rw [adjustView_ids]
      exact hids

/-- Claim C1 witness: the theorem applied to `chainOk` (`N = 3`). -/
theorem C1_witness :
    (readOnchainData chainOk).nodes.length = 3 - 1 ∧
    (readOnchainData chainOk).nodes.map Node.id = (List.range' 1 (3 - 1)).map Nat.repr :=
  C1_node_count_and_ids chainOk 3 2 (fun i => Nat.repr i) rfl rfl
    (fun j h1 h2 => rfl) (by decide)

/-- Claim C2 counterexample: with `transitionCount = M = 2` the
projection appends `M - 1 = 1` edge, but its id is `1`, outside the
claimed integer range `1..M-2 = 1..0`. -/
theorem C2_counterexample :
    (readOnchainData chainM2).edges.length = 2 - 1 ∧
    ¬ (∀ e ∈ (readOnchainData chainM2).edges, 1 ≤ e.id ∧ e.id ≤ 2 - 2) := by
  decide

/-- Claim C2 as amended: for every `transitionCount = M ≥ 1`, when both
counts resolve and every record read succeeds, the projection appends
exactly `M - 1` edges whose integer ids are `1..M-1`, each edge built
from the fetched tuple for its index. -/
theorem C2_edge_count_and_ids (c : Chain) (N M : Nat)
    (f : Nat → String) (g : Nat → RawTransition)
    (hN : c.stateIndex = some N) (hM : c.transitionIndex = some M)
    (hs : ∀ j, 1 ≤ j → j < N → c.states j = some (f j))
    (ht : ∀ j, 1 ≤ j → j < M → c.transitions j = some (g j)) (_hM1 : 1 ≤ M) :
    (readOnchainData c).edges.length = M - 1 ∧
    (readOnchainData c).edges.map Edge.id = List.range' 1 (M - 1) ∧
    (readOnchainData c).edges = (List.range' 1 (M - 1)).map fun j => mkEdge j (g j) := by
  rw [readOnchainData_success_eq c N M f g hN hM hs ht]
  refine ⟨by simp, ?_, rfl⟩
  rw [List.map_map]
  have : (Edge.id ∘ fun j => mkEdge j (g j)) = fun j => j := by
    funext j
    rfl
  rw [this, List.map_id']

/-- Claim C2 witness for the amended statement: `chainOk` (`M = 2`). -/
theorem C2_witness :
    (readOnchainData chainOk).edges.length = 2 - 1 ∧
    (readOnchainData chainOk).edges.map Edge.id = List.range' 1 (2 - 1) ∧
    (readOnchainData chainOk).edges
      = (List.range' 1 (2 - 1)).map fun j => mkEdge j ⟨"go", 1, 2, true⟩ :=
  C2_edge_count_and_ids chainOk 3 2 (fun i => Nat.repr i) (fun _ => ⟨"go", 1, 2, true⟩)
    rfl rfl (fun j h1 h2 => rfl) (fun j h1 h2 => rfl) (by decide)

/-- Claim C3, evaluated on the code: when `states(1)` rejects the graph
keeps zero nodes and zero edges and no classification runs — but the
fit-to-view "ready" signal IS emitted (`ready = true`), because
`readOnchainData` never returns its inner promise chain, so the promise
`onInit` chains `fitView` onto resolves as soon as the `stateIndex`
count read resolves.  Second conjunct: a mid-loop failure keeps the
nodes appended before it, unclassified, again with `ready = true`. -/
theorem C3_failure_behavior :
    readOnchainData chainFail
        = { nodes := [], edges := [], classified := false, ready := true } ∧
    readOnchainData chainPartial
        = { nodes := [mkNode 1 "a"], edges := [], classified := false, ready := true } := by
  decide

/-- Claim C4: after classification, a node with string id `"1"` has role
`input` exactly when it has at least one outgoing edge and role `output`
exactly when it has none: the `input` assignment runs first and the
`output` check second, so a node matching both conditions ends `output`. -/
theorem C4_node_one_role (ns : List Node) (es : List Edge) (n : Node)
    (hn : n ∈ adjustView ns es) (h1 : n.id = "1") :
    n.type = if hasOutgoing es "1" then some "input" else some "output" := by
  rw [adjustView_eq_map] at hn
  obtain ⟨m, hm, rfl⟩ := List.mem_map.mp hn
  have hid : m.id = "1" := by
    rw [← roleFun_preserves_id es m]
    exact h1
  unfold roleFun
  rw [hid]
  cases ho : hasOutgoing es "1" <;> simp [ho]

/-- Claim C4 witness: in the classified graph of a one-node, one-edge
session where node `"1"` has an outgoing edge, node `"1"` ends `input`. -/
theorem C4_witness :
    ({ mkNode 1 "a" with type := some "input" } : Node).type
      = if hasOutgoing [mkEdge 1 ⟨"go", 1, 2, true⟩] "1"
        then some "input" else some "output" :=
  C4_node_one_role [mkNode 1 "a"] [mkEdge 1 ⟨"go", 1, 2, true⟩]
    { mkNode 1 "a" with type := some "input" } (by decide) (by decide)

/-- Claim C5: the classifier is idempotent — classifying twice yields
exactly the classification of a single run — and, as embedded,
`classifyGraph` is a pure function of the graph (nodes and edges). -/
theorem C5_classifier_idempotent (g : Graph) :
    classifyGraph (classifyGraph g) = classifyGraph g := by
  unfold classifyGraph
  simp only [Graph.mk.injEq, and_true]
  rw [adjustView_eq_map, adjustView_eq_map, List.map_map]
  refine List.map_congr_left (fun n _ => ?_)
  simp only [Function.comp_apply]
  exact roleFun_idem g.edges n

/-- Claim C6: `stateCount` of 0 or 1 yields zero nodes, and
`transitionCount` of 0 or 1 yields zero edges, in each case without
failing; with both at the boundary the run completes (classification
runs and the ready signal fires), and classifying the empty graph is a
no-op. -/
theorem C6_boundary_counts (c : Chain) (N M : Nat)
    (hN : c.stateIndex = some N) (hM : c.transitionIndex = some M) :
    ((N = 0 ∨ N = 1) → (readOnchainData c).nodes = []) ∧
    ((M = 0 ∨ M = 1) → (readOnchainData c).edges = []) ∧
    ((N = 0 ∨ N = 1) → (M = 0 ∨ M = 1) →
      readOnchainData c
        = { nodes := [], edges := [], classified := true, ready := true }) ∧
    classifyGraph { nodes := [], edges := [] } = { nodes := [], edges := [] } := by
  have hn0 : (N = 0 ∨ N = 1) → buildNodesGo c.states (N - 1) 1 = ([], true) := by
    rintro (rfl | rfl) <;> rfl
  have hm0 : (M = 0 ∨ M = 1) → buildEdgesGo c.transitions (M - 1) 1 = ([], true) := by
    rintro (rfl | rfl) <;> rfl
  refine ⟨?_, ?_, ?_, rfl⟩
  · intro h
    unfold readOnchainData
    rw [hN, hM]
    simp only [buildNodes, buildEdges]
    rw [hn0 h]
    cases hok2 : (buildEdgesGo c.transitions (M - 1) 1).2 with
    | false => simp [hok2]
    | true => simp [hok2, adjustView_eq_map]
  · intro h
    unfold readOnchainData
    rw [hN, hM]
    simp only [buildNodes, buildEdges]
    cases hok : (buildNodesGo c.states (N - 1) 1).2 with
    | false => simp [hok]
    | true => simp [hok, hm0 h]
  · intro h1 h2
    unfold readOnchainData
    rw [hN, hM]
    simp only [buildNodes, buildEdges]
    rw [hn0 h1, hm0 h2]
    simp [adjustView_eq_map]

/-- Claim C6 witness: the boundary session `N = 1`, `M = 0`. -/
theorem C6_witness :
    ((1 = 0 ∨ 1 = 1) → (readOnchainData chainBoundary).nodes = []) ∧
    ((0 = 0 ∨ 0 = 1) → (readOnchainData chainBoundary).edges = []) ∧
    ((1 = 0 ∨ 1 = 1) → (0 = 0 ∨ 0 = 1) →
      readOnchainData chainBoundary
        = { nodes := [], edges := [], classified := true, ready := true }) ∧
    classifyGraph { nodes := [], edges := [] } = { nodes := [], edges := [] } :=
  C6_boundary_counts chainBoundary 1 0 rfl rfl

/-- Claim C7: in every run (complete or partial), node placement is a
function of fetch order alone: the k-th node (0-based) sits at the fixed
horizontal offset 250, vertical offset `150 + 100 * k`. -/
theorem C7_node_positions (c : Chain) :
    (readOnchainData c).nodes.map (fun n => (n.x, n.y))
      = (List.range (readOnchainData c).nodes.length).map
          (fun k => (250, 150 + 100 * k)) := by
  obtain ⟨m, hsig⟩ := readOnchainData_nodes_sig c
  have hlen : (readOnchainData c).nodes.length = m := by
    simpa using congrArg List.length hsig
  rw [hlen]
  have h2 := congrArg (List.map Prod.snd) hsig
  rw [List.map_map, List.map_map] at h2
  simp only [Function.comp_def] at h2
  rw [h2, List.range'_eq_map_range, List.map_map]
  simp only [Function.comp_def]
  refine List.map_congr_left (fun k _ => ?_)
  simp only [Prod.mk.injEq]
  refine ⟨by trivial, by omega⟩

/-- Claim C8: every edge built from the raw 4-tuple fetched for
transition index `i = 1 + k` satisfies the TransitionRecord schema:
`id = i`, `label = tuple[0]`, `source = tuple[1] (as string)`,
`target = tuple[2] (as string)`, `animated = truthiness of tuple[3]`,
with the arrow marker. -/
theorem C8_edge_schema (c : Chain) (N M : Nat)
    (f : Nat → String) (g : Nat → RawTransition)
    (hN : c.stateIndex = some N) (hM : c.transitionIndex = some M)
    (hs : ∀ j, 1 ≤ j → j < N → c.states j = some (f j))
    (ht : ∀ j, 1 ≤ j → j < M → c.transitions j = some (g j)) :
    ∀ k, k < M - 1 →
      ∃ e, (readOnchainData c).edges[k]? = some e ∧
        e.id = 1 + k ∧
        e.label = (g (1 + k)).label ∧
        e.source = Nat.repr (g (1 + k)).source ∧
        e.target = Nat.repr (g (1 + k)).target ∧
        e.animated = (g (1 + k)).flag ∧
        e.markerEnd = MarkerType.arrowClosed := by
  intro k hk
  rw [readOnchainData_success_eq c N M f g hN hM hs ht]
  have hlen : k < (((List.range' 1 (M - 1)).map fun j => mkEdge j (g j))).length := by
    simpa using hk
  refine ⟨mkEdge (1 + k) (g (1 + k)), ?_, rfl, rfl, rfl, rfl, rfl, rfl⟩
  rw [List.getElem?_eq_getElem hlen]
  simp [List.getElem_range']

/-- Claim C8 witness: the single edge of `chainOk` carries tuple
`("go", 1, 2, true)` at index 1. -/
theorem C8_witness :
    ∃ e, (readOnchainData chainOk).edges[0]? = some e ∧
      e.id = 1 + 0 ∧
      e.label = (RawTransition.mk "go" 1 2 true).label ∧
      e.source = Nat.repr (RawTransition.mk "go" 1 2 true).source ∧
      e.target = Nat.repr (RawTransition.mk "go" 1 2 true).target ∧
      e.animated = (RawTransition.mk "go" 1 2 true).flag ∧
      e.markerEnd = MarkerType.arrowClosed :=
  C8_edge_schema chainOk 3 2 (fun i => Nat.repr i) (fun _ => ⟨"go", 1, 2, true⟩)
    rfl rfl (fun j h1 h2 => rfl) (fun j h1 h2 => rfl) 0 (by decide)

/-- Claim C9: in every (possibly partial) run, node ids are pairwise
distinct, edge ids are pairwise distinct, and nodes appear in ascending
fetch-index order (`"1"`, `"2"`, ...); dangling `source`/`target`
references are permitted: `chainDangling`'s run completes (is
classified) although its edge's source is no node's id. -/
theorem C9_id_invariants (c : Chain) :
    ((readOnchainData c).nodes.map Node.id).Nodup ∧
    ((readOnchainData c).edges.map Edge.id).Nodup ∧
    (readOnchainData c).nodes.map Node.id
      = (List.range' 1 (readOnchainData c).nodes.length).map Nat.repr ∧
    ((readOnchainData chainDangling).classified = true ∧
      ∃ e ∈ (readOnchainData chainDangling).edges,
        e.source ∉ (readOnchainData chainDangling).nodes.map Node.id) := by
  obtain ⟨m, hsig⟩ := readOnchainData_nodes_sig c
  obtain ⟨me, hedge⟩ := readOnchainData_edges_ids c
  have hlen : (readOnchainData c).nodes.length = m := by
    simpa using congrArg List.length hsig
  have hids : (readOnchainData c).nodes.map Node.id
      = (List.range' 1 m).map Nat.repr := by
    have h1 := congrArg (List.map (fun p => p.1)) hsig
    simpa only [List.map_map, Function.comp] using h1
  refine ⟨?_, ?_, ?_, by decide⟩
  · rw [hids]
    exact (List.nodup_range' 1 m).map natRepr_injective
  · rw [hedge]
    exact List.nodup_range' 1 me
  · rw [hlen, hids]

/-- Claim C10: classification modifies only the `type` (role) field: it
leaves every node's id, label, position and class unchanged, preserves
the length and order of the node sequence, and leaves the edge sequence
entirely unchanged. -/
theorem C10_classifier_frame (g : Graph) :
    (classifyGraph g).edges = g.edges ∧
    (classifyGraph g).nodes.length = g.nodes.length ∧
    (classifyGraph g).nodes.map (fun n => (n.id, n.label, n.x, n.y, n.cls))
      = g.nodes.map (fun n => (n.id, n.label, n.x, n.y, n.cls)) :=
  ⟨rfl, adjustView_length g.nodes g.edges, adjustView_frame g.nodes g.edges⟩

end WorkflowVisual
